import Mathlib

/-!
Verification of the Ralph Wiggum loop driver (external CLI `ralph.ts` and
in-host plugin `.opencode/plugin/ralph-wiggum.ts`).

The development shallowly embeds the state machine shared by both drivers:
the completion matcher (a case-insensitive regex test), the prompt builders,
the persisted loop state and its file operations, the external process-spawn
loop, and the plugin's idle / message-updated event handlers.
-/

namespace RalphWiggum

/-! ## Characters: ECMAScript whitespace and case-insensitive comparison -/

/-- The character class matched by `\s` in an ECMAScript regular expression
(WhiteSpace plus LineTerminator code points). -/
def isJsWhitespace (c : Char) : Bool :=
  c == '\t' || c == '\n' || c == '\x0b' || c == '\x0c' || c == '\r' || c == ' ' ||
  c == '\u00A0' || c == '\u1680' || ('\u2000' ≤ c && c ≤ '\u200A') || c == '\u2028' ||
  c == '\u2029' || c == '\u202F' || c == '\u205F' || c == '\u3000' || c == '\uFEFF'

/-- Case-insensitive character comparison, modelling the canonicalisation the
regex `i` flag performs (the markers in play are ASCII, where canonicalisation
is plain lower-casing). -/
def ciEqChar (a b : Char) : Bool :=
  a.toLower == b.toLower

/-- Case-insensitive equality of character lists of equal length. -/
def ciEqList : List Char → List Char → Bool
  | [], [] => true
  | a :: as, b :: bs => ciEqChar a b && ciEqList as bs
  | _, _ => false

/-! ## The regex pattern interpreter

`checkCompletion` in both sources builds the pattern string
`<promise>\s*${escapeRegex(promise)}\s*</promise>`, compiles it with the `i`
flag and calls `.test(output)`.  The embedding keeps that structure: the
pattern string is built exactly as in the source, lexed into the atoms it can
contain (`\s*`, `\s`, escaped literal characters, plain literal characters),
and matched with the standard backtracking semantics.  `.test` succeeds iff
the pattern matches starting at some position of the text. -/

/-- An atom of the patterns `checkCompletion` constructs. -/
inductive RTok where
  | wsStar : RTok
  | wsOne : RTok
  | lit : Char → RTok
deriving DecidableEq, Repr

/-- Lex a pattern string into atoms: `\s*` (whitespace star), `\s` (single
whitespace), `\c` (escaped literal), plain literal character. -/
def lexPattern : List Char → List RTok
  | [] => []
  | '\\' :: 's' :: '*' :: p => .wsStar :: lexPattern p
  | '\\' :: 's' :: p => .wsOne :: lexPattern p
  | '\\' :: c :: p => .lit c :: lexPattern p
  | ['\\'] => []
  | c :: p => .lit c :: lexPattern p

/-- Match the greedy-with-backtracking `\s*` atom: try the continuation after
dropping each all-whitespace prefix of the text. -/
def wsStarAux (k : List Char → Bool) : List Char → Bool
  | [] => k []
  | c :: cs => k (c :: cs) || (isJsWhitespace c && wsStarAux k cs)

/-- Backtracking match of a lexed pattern against a text, anchored at the
start of the text (the `i` flag is reflected by `ciEqChar`). -/
def matchToks : List RTok → List Char → Bool
  | [], _ => true
  | .wsStar :: ts, s => wsStarAux (matchToks ts) s
  | .wsOne :: _, [] => false
  | .wsOne :: ts, c :: cs => isJsWhitespace c && matchToks ts cs
  | .lit _ :: _, [] => false
  | .lit a :: ts, c :: cs => ciEqChar a c && matchToks ts cs

/-- `RegExp.test`: the pattern matches at some position of the text. -/
def reTest (ts : List RTok) : List Char → Bool
  | [] => matchToks ts []
  | c :: cs => matchToks ts (c :: cs) || reTest ts cs

/-! ## `escapeRegex` and `checkCompletion`, from the source -/

/-- The characters replaced by `escapeRegex`
(`str.replace(/[.*+?^$\x7b\x7d()|[\]\\]/g, "\\$&")`). -/
def isRegexSpecial (c : Char) : Bool :=
  c == '.' || c == '*' || c == '+' || c == '?' || c == '^' || c == '$' ||
  c == '\x7b' || c == '\x7d' || c == '(' || c == ')' || c == '|' ||
  c == '[' || c == ']' || c == '\\'

/-- `escapeRegex` on the character list: each special character is replaced
by a backslash followed by itself. -/
def escapeRegexList : List Char → List Char
  | [] => []
  | c :: cs => if isRegexSpecial c then '\\' :: c :: escapeRegexList cs else c :: escapeRegexList cs

/-- `escapeRegex(str)` from both sources. -/
def escapeRegex (s : String) : String :=
  ⟨escapeRegexList s.data⟩

/-- The pattern string `<promise>\s*${escapeRegex(promise)}\s*</promise>`
built by `checkCompletion` (as a character list). -/
def promisePattern (promise : String) : List Char :=
  "<promise>".data ++ ['\\', 's', '*'] ++ (escapeRegex promise).data ++
    ['\\', 's', '*'] ++ "</promise>".data

/-- `checkCompletion(output, promise)` from both sources: build the pattern
with the marker escaped, compile case-insensitively, and test the output. -/
def checkCompletion (output promise : String) : Bool :=
  reTest (lexPattern (promisePattern promise)) output.data

/-- Sanity: the matcher on plain marker text. -/
example : checkCompletion "done <promise>COMPLETE</promise>" "COMPLETE" = true := by decide

example : checkCompletion "<promise> complete </promise>" "COMPLETE" = true := by decide

example : checkCompletion "no marker here" "COMPLETE" = false := by decide

example : checkCompletion "<promise>a.b*c</promise>" "a.b*c" = true := by decide

example : checkCompletion "<promise>aXbYc</promise>" "a.b*c" = false := by decide

example : checkCompletion "<PROMISE>COMPLETE</PROMISE>" "COMPLETE" = true := by decide

/-! ## Substring machinery -/

/-- Boolean test that `occ` occurs at the head of `s`. -/
def isPrefixOfList : List Char → List Char → Bool
  | [], _ => true
  | _ :: _, [] => false
  | a :: as, b :: bs => a == b && isPrefixOfList as bs

/-- Boolean test that `occ` occurs contiguously somewhere in the second list
(the semantics of JavaScript `String.prototype.includes`). -/
def containsSeg (occ : List Char) : List Char → Bool
  | [] => isPrefixOfList occ []
  | c :: cs => isPrefixOfList occ (c :: cs) || containsSeg occ cs

theorem isPrefixOfList_iff (occ s : List Char) :
    isPrefixOfList occ s = true ↔ ∃ r, s = occ ++ r := by
  induction occ generalizing s with
  | nil => simp [isPrefixOfList]
  | cons a as ih =>
    cases s with
    | nil => simp [isPrefixOfList]
    | cons b bs =>
      simp only [isPrefixOfList, Bool.and_eq_true, beq_iff_eq, ih, List.cons_append,
        List.cons.injEq]
      constructor
      · rintro ⟨rfl, r, rfl⟩; exact ⟨r, rfl, rfl⟩
      · rintro ⟨r, rfl, rfl⟩; exact ⟨rfl, r, rfl⟩

theorem containsSeg_iff (occ s : List Char) :
    containsSeg occ s = true ↔ ∃ a b, s = a ++ occ ++ b := by
  induction s with
  | nil =>
    simp only [containsSeg, isPrefixOfList_iff]
    constructor
    · rintro ⟨r, h⟩; exact ⟨[], r, h⟩
    · rintro ⟨a, b, h⟩
      rcases List.append_eq_nil.mp ((List.append_assoc _ _ _ ▸ h).symm) with ⟨rfl, h2⟩
      rcases List.append_eq_nil.mp h2 with ⟨rfl, rfl⟩
      exact ⟨[], rfl⟩
  | cons c cs ih =>
    simp only [containsSeg, Bool.or_eq_true, isPrefixOfList_iff, ih]
    constructor
    · rintro (⟨r, h⟩ | ⟨a, b, h⟩)
      · exact ⟨[], r, by simpa using h⟩
      · exact ⟨c :: a, b, by simp [h]⟩
    · rintro ⟨a, b, h⟩
      cases a with
      | nil => exact Or.inl ⟨b, by simpa using h⟩
      | cons x xs =>
        rw [List.cons_append, List.cons_append, List.cons.injEq] at h
        exact Or.inr ⟨xs, b, by simp [h.2]⟩

/-! ## Spec-side readings of the completion matcher -/

/-- The tag delimiters of the completion pattern. -/
def openTagChars : List Char := "<promise>".data

/-- The closing tag delimiter of the completion pattern. -/
def closeTagChars : List Char := "</promise>".data

/-- The claim's reading of the matcher: the text contains the literal
substring `<promise>`, optional whitespace, the marker as case-insensitive
literal text, optional whitespace, and the literal substring `</promise>`. -/
def SpecMatchLiteral (t m : List Char) : Prop :=
  ∃ pre w1 mm w2 post,
    t = pre ++ openTagChars ++ w1 ++ mm ++ w2 ++ closeTagChars ++ post ∧
    w1.all isJsWhitespace = true ∧ ciEqList m mm = true ∧ w2.all isJsWhitespace = true

/-- The amended reading: exactly as `SpecMatchLiteral`, except that the two
tag delimiters are themselves matched case-insensitively (the `i` flag of the
constructed regex applies to the whole pattern, delimiters included). -/
def SpecMatchCI (t m : List Char) : Prop :=
  ∃ pre tagO w1 mm w2 tagC post,
    t = pre ++ tagO ++ w1 ++ mm ++ w2 ++ tagC ++ post ∧
    ciEqList openTagChars tagO = true ∧ w1.all isJsWhitespace = true ∧
    ciEqList m mm = true ∧ w2.all isJsWhitespace = true ∧
    ciEqList closeTagChars tagC = true

/-! ## Lexing the constructed pattern -/

theorem lexPattern_plain (c : Char) (p : List Char) (hc : c ≠ '\\') :
    lexPattern (c :: p) = .lit c :: lexPattern p := by
  rw [lexPattern.eq_def]
  split
  · rename_i heq; exact absurd heq (by simp)
  · rename_i heq; rw [List.cons.injEq] at heq; exact absurd heq.1 hc
  · rename_i _ heq; rw [List.cons.injEq] at heq; exact absurd heq.1 hc
  · rename_i _ _ heq; rw [List.cons.injEq] at heq; exact absurd heq.1 hc
  · rename_i heq; rw [List.cons.injEq] at heq; exact absurd heq.1 hc
  · rename_i _ _ _ _ heq
    rw [List.cons.injEq] at heq
    rw [← heq.1, ← heq.2]

theorem lexPattern_escaped (c : Char) (p : List Char) (hc : c ≠ 's') :
    lexPattern ('\\' :: c :: p) = .lit c :: lexPattern p := by
  rw [lexPattern.eq_def]
  split
  · rename_i heq; exact absurd heq (by simp)
  · rename_i heq
    rw [List.cons.injEq, List.cons.injEq] at heq
    exact absurd heq.2.1 hc
  · rename_i _ heq
    rw [List.cons.injEq, List.cons.injEq] at heq
    exact absurd heq.2.1 hc
  · rename_i _ _ heq
    rw [List.cons.injEq, List.cons.injEq] at heq
    rw [← heq.2.1, ← heq.2.2]
  · rename_i heq
    rw [List.cons.injEq] at heq
    exact absurd heq.2 (by simp)
  · rename_i _ _ h3 _ heq
    rw [List.cons.injEq] at heq
    exact (h3 c p heq.1.symm heq.2.symm).elim

theorem lexPattern_wsStar (p : List Char) :
    lexPattern ('\\' :: 's' :: '*' :: p) = .wsStar :: lexPattern p := rfl

theorem lexPattern_plainList (L : List Char) (hL : ∀ c ∈ L, c ≠ '\\') (r : List Char) :
    lexPattern (L ++ r) = L.map RTok.lit ++ lexPattern r := by
  induction L with
  | nil => simp
  | cons c cs ih =>
    rw [List.cons_append, lexPattern_plain c _ (hL c (by simp)),
      ih (fun d hd => hL d (by simp [hd]))]
    simp

theorem lexPattern_plainOnly (L : List Char) (hL : ∀ c ∈ L, c ≠ '\\') :
    lexPattern L = L.map RTok.lit := by
  have h := lexPattern_plainList L hL []
  simpa [show lexPattern [] = [] from rfl] using h

theorem lexPattern_escapeList (m : List Char) (r : List Char) :
    lexPattern (escapeRegexList m ++ r) = m.map RTok.lit ++ lexPattern r := by
  induction m with
  | nil => simp [escapeRegexList]
  | cons c cs ih =>
    by_cases h : isRegexSpecial c = true
    · have hs : c ≠ 's' := by rintro rfl; exact absurd h (by decide)
      rw [escapeRegexList, if_pos h, List.cons_append, List.cons_append,
        lexPattern_escaped c _ hs, ih]
      simp
    · have hb : c ≠ '\\' := by rintro rfl; exact absurd (by decide) h
      rw [escapeRegexList, if_neg h, List.cons_append, lexPattern_plain c _ hb, ih]
      simp

theorem lexPattern_promise (m : String) :
    lexPattern (promisePattern m) =
      openTagChars.map RTok.lit ++ .wsStar ::
        (m.data.map RTok.lit ++ .wsStar :: closeTagChars.map RTok.lit) := by
  have h1 : promisePattern m = openTagChars ++ ('\\' :: 's' :: '*' ::
      (escapeRegexList m.data ++ ('\\' :: 's' :: '*' :: closeTagChars))) := by
    simp [promisePattern, openTagChars, closeTagChars, escapeRegex]
  rw [h1, lexPattern_plainList openTagChars (by decide), lexPattern_wsStar,
    lexPattern_escapeList, lexPattern_wsStar, lexPattern_plainOnly closeTagChars (by decide)]

/-! ## Matching characterisation -/

theorem ciEqList_nil_iff (p : List Char) : ciEqList [] p = true ↔ p = [] := by
  cases p <;> simp [ciEqList]

theorem ciEqList_refl (l : List Char) : ciEqList l l = true := by
  induction l with
  | nil => rfl
  | cons c cs ih => simp [ciEqList, ciEqChar, ih]

theorem matchToks_nil (s : List Char) : matchToks [] s = true := by
  cases s <;> rfl

theorem matchToks_lits (L : List Char) (ts : List RTok) (s : List Char) :
    matchToks (L.map RTok.lit ++ ts) s = true ↔
      ∃ p r, s = p ++ r ∧ ciEqList L p = true ∧ matchToks ts r = true := by
  induction L generalizing s with
  | nil =>
    simp only [List.map_nil, List.nil_append]
    constructor
    · intro h; exact ⟨[], s, rfl, rfl, h⟩
    · rintro ⟨p, r, rfl, hp, hr⟩
      rw [ciEqList_nil_iff] at hp
      subst hp
      simpa using hr
  | cons a as ih =>
    cases s with
    | nil =>
      rw [List.map_cons, List.cons_append,
        show matchToks (RTok.lit a :: (as.map RTok.lit ++ ts)) [] = false from rfl]
      constructor
      · intro h; exact Bool.noConfusion h
      · rintro ⟨p, r, hpr, hp, -⟩
        rcases List.append_eq_nil.mp hpr.symm with ⟨rfl, -⟩
        simp [ciEqList] at hp
    | cons c cs =>
      rw [List.map_cons, List.cons_append,
        show matchToks (RTok.lit a :: (as.map RTok.lit ++ ts)) (c :: cs) =
          (ciEqChar a c && matchToks (as.map RTok.lit ++ ts) cs) from rfl,
        Bool.and_eq_true, ih cs]
      constructor
      · rintro ⟨hac, p, r, rfl, hp, hr⟩
        exact ⟨c :: p, r, rfl, by simp [ciEqList, hac, hp], hr⟩
      · rintro ⟨p, r, hpr, hp, hr⟩
        cases p with
        | nil => simp [ciEqList] at hp
        | cons d ds =>
          rw [List.cons_append, List.cons.injEq] at hpr
          obtain ⟨rfl, rfl⟩ := hpr
          simp only [ciEqList, Bool.and_eq_true] at hp
          exact ⟨hp.1, ds, r, rfl, hp.2, hr⟩

theorem wsStarAux_iff (k : List Char → Bool) (s : List Char) :
    wsStarAux k s = true ↔
      ∃ w r, s = w ++ r ∧ w.all isJsWhitespace = true ∧ k r = true := by
  induction s with
  | nil =>
    simp only [wsStarAux]
    constructor
    · intro h; exact ⟨[], [], rfl, rfl, h⟩
    · rintro ⟨w, r, hwr, -, hr⟩
      rcases List.append_eq_nil.mp hwr.symm with ⟨rfl, rfl⟩
      exact hr
  | cons c cs ih =>
    simp only [wsStarAux, Bool.or_eq_true, Bool.and_eq_true, ih]
    constructor
    · rintro (h | ⟨hc, w, r, rfl, hw, hr⟩)
      · exact ⟨[], c :: cs, rfl, rfl, h⟩
      · exact ⟨c :: w, r, rfl, by simp [hc, hw], hr⟩
    · rintro ⟨w, r, hwr, hw, hr⟩
      cases w with
      | nil => exact Or.inl (by rw [List.nil_append] at hwr; rw [← hwr] at hr; exact hr)
      | cons d ds =>
        rw [List.cons_append, List.cons.injEq] at hwr
        simp only [List.all_cons, Bool.and_eq_true] at hw
        rw [hwr.1]
        exact Or.inr ⟨hw.1, ds, r, hwr.2, hw.2, hr⟩

theorem matchToks_wsStar (ts : List RTok) (s : List Char) :
    matchToks (.wsStar :: ts) s = true ↔
      ∃ w r, s = w ++ r ∧ w.all isJsWhitespace = true ∧ matchToks ts r = true := by
  have aux : matchToks (.wsStar :: ts) s = wsStarAux (matchToks ts) s := by
    cases s <;> rfl
  rw [aux, wsStarAux_iff]

theorem reTest_iff (ts : List RTok) (s : List Char) :
    reTest ts s = true ↔ ∃ pre suf, s = pre ++ suf ∧ matchToks ts suf = true := by
  induction s with
  | nil =>
    simp only [reTest]
    constructor
    · intro h; exact ⟨[], [], rfl, h⟩
    · rintro ⟨pre, suf, hps, hs⟩
      rcases List.append_eq_nil.mp hps.symm with ⟨rfl, rfl⟩
      exact hs
  | cons c cs ih =>
    simp only [reTest, Bool.or_eq_true, ih]
    constructor
    · rintro (h | ⟨pre, suf, rfl, hs⟩)
      · exact ⟨[], c :: cs, rfl, h⟩
      · exact ⟨c :: pre, suf, rfl, hs⟩
    · rintro ⟨pre, suf, hps, hs⟩
      cases pre with
      | nil => exact Or.inl (by rw [List.nil_append] at hps; rw [← hps] at hs; exact hs)
      | cons d ds =>
        rw [List.cons_append, List.cons.injEq] at hps
        obtain ⟨rfl, rfl⟩ := hps
        exact Or.inr ⟨ds, suf, rfl, hs⟩

/-- The central characterisation of `checkCompletion`: the constructed regex
accepts exactly the texts containing (case-insensitive) open tag, optional
whitespace, the marker as a case-insensitive literal, optional whitespace and
(case-insensitive) close tag. -/
theorem checkCompletion_iff (t m : String) :
    checkCompletion t m = true ↔ SpecMatchCI t.data m.data := by
  unfold checkCompletion SpecMatchCI
  rw [lexPattern_promise, reTest_iff]
  constructor
  · rintro ⟨pre, suf, ht, hm⟩
    rw [matchToks_lits] at hm
    obtain ⟨tagO, r1, rfl, hTagO, hm⟩ := hm
    rw [matchToks_wsStar] at hm
    obtain ⟨w1, r2, rfl, hw1, hm⟩ := hm
    rw [matchToks_lits] at hm
    obtain ⟨mm, r3, rfl, hmm, hm⟩ := hm
    rw [matchToks_wsStar] at hm
    obtain ⟨w2, r4, rfl, hw2, hm⟩ := hm
    rw [show closeTagChars.map RTok.lit = closeTagChars.map RTok.lit ++ [] by simp,
      matchToks_lits] at hm
    obtain ⟨tagC, post, rfl, hTagC, -⟩ := hm
    refine ⟨pre, tagO, w1, mm, w2, tagC, post, ?_, hTagO, hw1, hmm, hw2, hTagC⟩
    simp only [List.append_assoc]
    exact ht
  · rintro ⟨pre, tagO, w1, mm, w2, tagC, post, ht, hTagO, hw1, hmm, hw2, hTagC⟩
    refine ⟨pre, tagO ++ w1 ++ mm ++ w2 ++ tagC ++ post, by simpa [List.append_assoc] using ht, ?_⟩
    rw [matchToks_lits]
    refine ⟨tagO, w1 ++ mm ++ w2 ++ tagC ++ post, by simp, hTagO, ?_⟩
    rw [matchToks_wsStar]
    refine ⟨w1, mm ++ w2 ++ tagC ++ post, by simp, hw1, ?_⟩
    rw [matchToks_lits]
    refine ⟨mm, w2 ++ tagC ++ post, by simp, hmm, ?_⟩
    rw [matchToks_wsStar]
    refine ⟨w2, tagC ++ post, by simp, hw2, ?_⟩
    rw [show closeTagChars.map RTok.lit = closeTagChars.map RTok.lit ++ [] by simp,
      matchToks_lits]
    exact ⟨tagC, post, by simp, hTagC, matchToks_nil post⟩

/-- A text satisfying the literal-tag reading contains the literal substring
`<promise>`. -/
theorem specMatchLiteral_containsOpenTag (t m : List Char) (h : SpecMatchLiteral t m) :
    containsSeg openTagChars t = true := by
  obtain ⟨pre, w1, mm, w2, post, ht, -, -, -⟩ := h
  rw [containsSeg_iff]
  exact ⟨pre, w1 ++ mm ++ w2 ++ closeTagChars ++ post, by simp [ht, List.append_assoc]⟩

/-- `checkCompletion` is monotone under substring containment: output text
that contains a matching text matches as well. -/
theorem checkCompletion_mono (s t m : String) (hsub : containsSeg s.data t.data = true)
    (h : checkCompletion s m = true) : checkCompletion t m = true := by
  rw [checkCompletion_iff] at h ⊢
  rw [containsSeg_iff] at hsub
  obtain ⟨a, b, hab⟩ := hsub
  obtain ⟨pre, tagO, w1, mm, w2, tagC, post, ht, h1, h2, h3, h4, h5⟩ := h
  exact ⟨a ++ pre, tagO, w1, mm, w2, tagC, post ++ b,
    by simp [hab, ht, List.append_assoc], h1, h2, h3, h4, h5⟩

/-! ## The persisted loop state (`RalphState` in both sources)

The record persisted as JSON at `.opencode/ralph-loop.state.json`.  The
external CLI writes `model` always and never `sessionId`/`lastOutput`; the
plugin treats `model`, `sessionId` and `lastOutput` as optional, so the
embedding makes all three optional.  `maxIterations` is an arbitrary integer:
the CLI stores whatever `parseInt` produced, including negative values. -/

structure RalphState where
  active : Bool
  iteration : Nat
  maxIterations : Int
  completionPromise : String
  prompt : String
  startedAt : String
  model : Option String := none
  sessionId : Option String := none
  lastOutput : Option String := none
deriving DecidableEq, Repr

/-! ## File operations of the state store

`saveState` in both sources: ensure the containing directory exists
(`mkdirSync(..., recursive: true)`), then a single direct
`writeFileSync(statePath, JSON.stringify(state, null, 2))`.  The embedding
records the sequence of file-system operations a save performs. -/

/-- The directory holding the state file. -/
def stateDir : String := ".opencode"

/-- The fixed relative path of the persisted state file. -/
def statePath : String := ".opencode/ralph-loop.state.json"

/-- A file-system operation a state-store call can perform. -/
inductive FsOp where
  | mkdirRecursive (path : String)
  | writeFile (path : String)
  | writeTempFile (path : String)
  | renameFile (src dst : String)
deriving DecidableEq, Repr

/-- The file-system operations performed by `saveState` in `ralph.ts`
(`existsSync`/`mkdirSync` on the directory, then one direct
`writeFileSync` of the serialized record to the state path). -/
def saveStateOps (stateDirExists : Bool) : List FsOp :=
  (if stateDirExists then [] else [.mkdirRecursive stateDir]) ++ [.writeFile statePath]

/-- The file-system operations performed by `saveState` in the plugin
(identical: `existsSync`/`mkdirSync`, then one direct `writeFileSync`). -/
def pluginSaveStateOps (stateDirExists : Bool) : List FsOp :=
  (if stateDirExists then [] else [.mkdirRecursive stateDir]) ++ [.writeFile statePath]

/-- Whether an operation list replaces the state file atomically: some
rename targets the state path (the temp-file-then-rename idiom). -/
def usesAtomicReplace (ops : List FsOp) : Bool :=
  ops.any fun op =>
    match op with
    | .renameFile _ dst => dst == statePath
    | _ => false

/-! ## Prompt builders

The template strings of `buildPrompt` (ralph.ts) and `buildIterationPrompt`
(plugin), transcribed segment by segment; the interpolation points of the
template literals become appends.  The literal segments around the two
`<promise>${state.completionPromise}</promise>` interpolations are split at
the tag boundaries. -/

/-- Segment of the ralph.ts template before the first iteration number. -/
def extSegA : String := "\n# Ralph Wiggum Loop - Iteration "

/-- Segment between the iteration number and the task prompt. -/
def extSegB : String := "\n\nYou are in an iterative development loop. Work on the task below until you can genuinely complete it.\n\n## Your Task\n\n"

/-- Segment between the task prompt and the first promise tag. -/
def extSegC : String := "\n\n## Instructions\n\n1. Read the current state of files to understand what's been done\n2. Make progress on the task\n3. Run tests/verification if applicable\n4. When the task is GENUINELY COMPLETE, output:\n   "

/-- Segment between the first and second promise tags. -/
def extSegD : String := "\n\n## Critical Rules\n\n- ONLY output "

/-- Segment between the second promise tag and the second iteration number. -/
def extSegE : String := " when the task is truly done\n- Do NOT lie or output false promises to exit the loop\n- If stuck, try a different approach\n- Check your work before claiming completion\n- The loop will continue until you succeed\n\n## Current Iteration: "

/-- Trailing segment of the ralph.ts template. -/
def extSegF : String := "\n\nNow, work on the task. Good luck!\n"

/-- The iteration counter suffix: ` / ${maxIterations}` when positive,
`" (unlimited)"` otherwise (shared by both templates). -/
def maxIterSuffix (st : RalphState) : String :=
  if st.maxIterations > 0 then " / " ++ toString st.maxIterations else " (unlimited)"

/-- The ralph.ts template literal before `.trim()`. -/
def promptTemplate (st : RalphState) : String :=
  extSegA ++ toString st.iteration ++ extSegB ++ st.prompt ++ extSegC ++
    "<promise>" ++ st.completionPromise ++ "</promise>" ++ extSegD ++
    "<promise>" ++ st.completionPromise ++ "</promise>" ++ extSegE ++
    toString st.iteration ++ maxIterSuffix st ++ extSegF

/-- JavaScript `String.prototype.trim`: drop ECMAScript whitespace from both
ends. -/
def trimList (l : List Char) : List Char :=
  ((l.dropWhile isJsWhitespace).reverse.dropWhile isJsWhitespace).reverse

/-- `buildPrompt(state)` from ralph.ts: the template literal, trimmed. -/
def buildPrompt (st : RalphState) : String :=
  ⟨trimList (promptTemplate st).data⟩

/-- Segment of the plugin template before the iteration number. -/
def plgSegA : String := "# Ralph Wiggum Loop - Iteration "

/-- Segment between the iteration number and the task prompt (plugin). -/
def plgSegB : String := "\n\nYou are in an iterative development loop. Work on the task below until completion.\n\n## Your Task\n\n"

/-- Segment between the task prompt and the first promise tag (plugin). -/
def plgSegC : String := "\n\n## Instructions\n\n1. Read the current state of files to understand what's been done\n2. Make progress on the task\n3. Run tests/verification if applicable\n4. When the task is GENUINELY COMPLETE, output:\n   "

/-- Segment between the first and second promise tags (plugin). -/
def plgSegD : String := "\n\n## Critical Rules\n\n- ONLY output "

/-- Segment between the second promise tag and the second iteration number
(plugin). -/
def plgSegE : String := " when the task is truly done\n- Do NOT lie or output false promises to exit the loop\n- If stuck, try a different approach\n- Check your work before claiming completion\n\n## Current Iteration: "

/-- Trailing segment of the plugin template. -/
def plgSegF : String := "\n\nNow, continue working on the task."

/-- `buildIterationPrompt(state)` from the plugin (no trim). -/
def buildIterationPrompt (st : RalphState) : String :=
  plgSegA ++ toString st.iteration ++ plgSegB ++ st.prompt ++ plgSegC ++
    "<promise>" ++ st.completionPromise ++ "</promise>" ++ plgSegD ++
    "<promise>" ++ st.completionPromise ++ "</promise>" ++ plgSegE ++
    toString st.iteration ++ maxIterSuffix st ++ plgSegF

/-! ## The external loop driver (`runRalphLoop` in ralph.ts) -/

/-- `detectPlaceholderPluginError(output)`: whether the output includes the
placeholder-package sentinel string. -/
def detectPlaceholderPluginError (output : String) : Bool :=
  containsSeg "ralph-wiggum is not yet ready for use. This is a placeholder package.".data
    output.data

/-- The observable result of one agent invocation: captured stdout, stderr
and exit code of the spawned `opencode run` process. -/
structure AgentResult where
  stdout : String
  stderr : String
  exitCode : Int
deriving DecidableEq, Repr

/-- One agent invocation either yields a result or throws (spawn/read
failure), which the loop body catches at the iteration boundary. -/
inductive AgentInvocation where
  | ok (r : AgentResult)
  | err
deriving DecidableEq, Repr

/-- How the external loop terminates.  `maxReached` and `completed` leave the
process with exit code 0; `placeholderError` calls `process.exit(1)`;
`agentFailed c` calls `process.exit(c)` propagating the agent's exit code. -/
inductive LoopResult where
  | maxReached
  | completed
  | placeholderError
  | agentFailed (code : Int)
deriving DecidableEq, Repr

/-- The process exit code each loop termination produces. -/
def exitCodeOf : LoopResult → Int
  | .maxReached => 0
  | .completed => 0
  | .placeholderError => 1
  | .agentFailed c => c

/-- `state.iteration++` before `saveState(state)` in the ralph.ts loop. -/
def incIter (st : RalphState) : RalphState :=
  { st with iteration := st.iteration + 1 }

/-- Observable outcome of running the external loop for a bounded number of
steps: which iteration numbers had a prompt built and the agent invoked,
which iterations attempted an auto-commit, how the loop terminated (`none`
while still running), and the state file contents afterwards. -/
structure RunOutcome where
  invoked : List Nat
  commits : List Nat
  result : Option LoopResult
  disk : Option RalphState
deriving DecidableEq, Repr

/-- The main loop of `runRalphLoop`, entered with the freshly saved state on
disk.  Each pass: max-iterations check (clear state and stop), build prompt
and spawn the agent, placeholder-sentinel check (clear state, exit 1),
nonzero exit code (clear state, exit with the same code), completion check
(clear state, stop), optional auto-commit, then increment-and-save and loop.
A thrown error inside a pass is caught: iteration is incremented, state
saved, and the loop continues.  `fuel` bounds how many passes we observe. -/
def runLoop (agent : Nat → AgentInvocation) (autoCommit : Bool) :
    Nat → RalphState → RunOutcome
  | 0, st => ⟨[], [], none, some st⟩
  | fuel + 1, st =>
    if st.maxIterations > 0 ∧ (st.iteration : Int) > st.maxIterations then
      ⟨[], [], some .maxReached, none⟩
    else
      match agent st.iteration with
      | .err =>
        let rest := runLoop agent autoCommit fuel (incIter st)
        ⟨st.iteration :: rest.invoked, rest.commits, rest.result, rest.disk⟩
      | .ok r =>
        if detectPlaceholderPluginError r.stderr || detectPlaceholderPluginError r.stdout then
          ⟨[st.iteration], [], some .placeholderError, none⟩
        else if r.exitCode ≠ 0 then
          ⟨[st.iteration], [], some (.agentFailed r.exitCode), none⟩
        else if checkCompletion r.stdout st.completionPromise then
          ⟨[st.iteration], [], some .completed, none⟩
        else
          let rest := runLoop agent autoCommit fuel (incIter st)
          ⟨st.iteration :: rest.invoked,
            (if autoCommit then [st.iteration] else []) ++ rest.commits,
            rest.result, rest.disk⟩

/-- The startup check of `runRalphLoop`: with an existing active record the
driver prints an error and calls `process.exit(1)` without touching the
file; otherwise it saves the fresh state (iteration 1) and enters the loop.
Returns the state file afterwards and `some 1` when it exited early. -/
def externalStart (disk : Option RalphState) (init : RalphState) :
    Option RalphState × Option Int :=
  match disk with
  | some s => if s.active then (disk, some 1) else (some init, none)
  | none => (some init, none)

/-! ## The in-host plugin driver -/

/-- Truthiness of `state.lastOutput && checkCompletion(state.lastOutput,
state.completionPromise)`: an absent or empty string is falsy. -/
def lastOutputComplete (st : RalphState) : Bool :=
  match st.lastOutput with
  | none => false
  | some l => !l.isEmpty && checkCompletion l st.completionPromise

/-- `(event as any).sessionId || state.sessionId` (JavaScript `||`: an empty
event session id falls back to the stored one). -/
def effectiveSession (evSession : Option String) (st : RalphState) : Option String :=
  match evSession with
  | some s => if s.isEmpty then st.sessionId else some s
  | none => st.sessionId

/-- `!sessionId || !client?.session?.prompt` negated: there is a non-empty
session id and the client exposes a prompt endpoint. -/
def sessionUsable (evSession : Option String) (st : RalphState) (clientOk : Bool) : Bool :=
  (match effectiveSession evSession st with
   | none => false
   | some s => !s.isEmpty) && clientOk

/-- Which branch of the idle handler ran. -/
inductive IdleAction where
  | skippedProcessing
  | noState
  | completionDetected
  | maxReached
  | noSession
  | submitted (prompt : String)
deriving DecidableEq, Repr

/-- Result of one idle event: the state file afterwards and the branch
taken (with the submitted prompt, if any). -/
structure IdleOut where
  disk : Option RalphState
  action : IdleAction
deriving DecidableEq, Repr

/-- The `session.idle` arm of the plugin event handler.  `processing` is the
in-memory re-entrancy flag at the instant the event arrives: when set, the
handler body is skipped entirely.  Otherwise: load state (absent or inactive
record: no-op), completion already detected in `lastOutput` (clear state),
max iterations exceeded (clear state), no usable session (warn, no-op), else
set the flag, increment iteration, save, build the iteration prompt and
submit it (the flag is cleared again when the attempt concludes). -/
def handleIdle (processing : Bool) (disk : Option RalphState)
    (evSession : Option String) (clientOk : Bool) : IdleOut :=
  if processing then ⟨disk, .skippedProcessing⟩
  else
    match disk with
    | none => ⟨none, .noState⟩
    | some st =>
      if !st.active then ⟨some st, .noState⟩
      else if lastOutputComplete st then ⟨none, .completionDetected⟩
      else if st.maxIterations > 0 ∧ (st.iteration : Int) > st.maxIterations then
        ⟨none, .maxReached⟩
      else if !sessionUsable evSession st clientOk then ⟨some st, .noSession⟩
      else
        let st2 := incIter st
        ⟨some st2, .submitted (buildIterationPrompt st2)⟩

/-- Assistant message content delivered with a `message.updated` event:
either a plain string, an array of typed parts, or something else/absent. -/
inductive MsgContent where
  | absent
  | str (s : String)
  | parts (l : List (String × Option String))
deriving DecidableEq, Repr

/-- JavaScript truthiness of `msg.content` (empty string falsy, any array
truthy). -/
def contentTruthy : MsgContent → Bool
  | .absent => false
  | .str s => !s.isEmpty
  | .parts _ => true

/-- Text extraction of the handler: a string is used directly; an array is
filtered to parts whose `type` is `"text"` and their `text` fields (or `""`)
joined. -/
def extractText : MsgContent → String
  | .absent => ""
  | .str s => s
  | .parts l =>
    String.join ((l.filter (fun p => p.1 == "text")).map (fun p => p.2.getD ""))

/-- The `message.updated` arm of the plugin event handler: with an active
state, assistant role and truthy content, extract the text; when it is
non-empty and satisfies the completion matcher, store it into `lastOutput`
and save; otherwise leave the state file untouched. -/
def handleMessageUpdated (disk : Option RalphState) (role : String)
    (content : MsgContent) : Option RalphState :=
  match disk with
  | none => none
  | some st =>
    if !st.active then some st
    else if role == "assistant" && contentTruthy content then
      let textContent := extractText content
      if !textContent.isEmpty && checkCompletion textContent st.completionPromise then
        some { st with lastOutput := some textContent }
      else some st
    else some st

/-- The `ralph_start` tool: refuse when a loaded record is active (returning
a message, writing nothing), otherwise create the state at iteration 1 with
`maxIterations || 0` and `completionPromise || "COMPLETE"` defaulting. -/
def ralphStartTool (disk : Option RalphState) (prompt : String)
    (maxIterations : Option Int) (completionPromise : Option String)
    (startedAt : String) : Option RalphState × Bool :=
  match disk with
  | some s =>
    if s.active then (disk, false)
    else
      (some
        { active := true
          iteration := 1
          maxIterations := (maxIterations.getD 0)
          completionPromise :=
            match completionPromise with
            | none => "COMPLETE"
            | some c => if c.isEmpty then "COMPLETE" else c
          prompt := prompt
          startedAt := startedAt }, true)
  | none =>
    (some
      { active := true
        iteration := 1
        maxIterations := (maxIterations.getD 0)
        completionPromise :=
          match completionPromise with
          | none => "COMPLETE"
          | some c => if c.isEmpty then "COMPLETE" else c
        prompt := prompt
        startedAt := startedAt }, true)

/-! ## Trimming preserves interior segments -/

theorem dropWhile_keeps_seg (P : Char → Bool) (c : Char) (hc : P c = false)
    (pre rest : List Char) :
    ∃ pre2, List.dropWhile P (pre ++ c :: rest) = pre2 ++ c :: rest := by
  induction pre with
  | nil => exact ⟨[], by simp [List.dropWhile_cons, hc]⟩
  | cons x xs ih =>
    by_cases hx : P x = true
    · obtain ⟨p2, hp⟩ := ih
      exact ⟨p2, by simp [List.dropWhile_cons, hx, hp]⟩
    · exact ⟨x :: xs, by simp [List.dropWhile_cons, hx]⟩

theorem trimRight_keeps_seg (P : Char → Bool) (d : Char) (hd : P d = false)
    (A post : List Char) :
    ∃ post2, ((A ++ d :: post).reverse.dropWhile P).reverse = A ++ d :: post2 := by
  obtain ⟨p2, hp⟩ := dropWhile_keeps_seg P d hd post.reverse A.reverse
  refine ⟨p2.reverse, ?_⟩
  have hrev : (A ++ d :: post).reverse = post.reverse ++ d :: A.reverse := by
    simp [List.reverse_append]
  rw [hrev, hp]
  simp [List.reverse_append, List.append_assoc]

theorem trimList_keeps_seg (c d : Char) (hc : isJsWhitespace c = false)
    (hd : isJsWhitespace d = false) (A pre post : List Char) :
    ∃ pre2 post2,
      trimList (pre ++ (c :: (A ++ [d])) ++ post) = pre2 ++ (c :: (A ++ [d])) ++ post2 := by
  obtain ⟨pre2, h1⟩ := dropWhile_keeps_seg isJsWhitespace c hc pre (A ++ [d] ++ post)
  obtain ⟨post2, h2⟩ := trimRight_keeps_seg isJsWhitespace d hd (pre2 ++ c :: A) post
  refine ⟨pre2, post2, ?_⟩
  unfold trimList
  have harg : pre ++ (c :: (A ++ [d])) ++ post = pre ++ c :: (A ++ [d] ++ post) := by
    simp [List.append_assoc]
  rw [harg, h1]
  have hshape : pre2 ++ c :: (A ++ [d] ++ post) = (pre2 ++ c :: A) ++ d :: post := by
    simp [List.append_assoc]
  rw [hshape, h2]
  simp [List.append_assoc]

/-! ## Decompositions of the rendered prompts -/

/-- The wrapped marker, reshaped to expose its non-whitespace first and last
characters. -/
theorem tagOcc_shape (m : List Char) :
    openTagChars ++ m ++ closeTagChars =
      '<' :: (("promise>".data ++ m ++ "</promise".data) ++ ['>']) := by
  have h1 : openTagChars = '<' :: "promise>".data := by decide
  have h2 : closeTagChars = "</promise".data ++ ['>'] := by decide
  rw [h1, h2]
  simp [List.append_assoc]

/-- A text with an explicit wrapped-marker decomposition satisfies the
case-insensitive reading (zero whitespace, identical marker). -/
theorem specMatchCI_of_decomp (t m : List Char) (pre post : List Char)
    (h : t = pre ++ (openTagChars ++ m ++ closeTagChars) ++ post) : SpecMatchCI t m :=
  ⟨pre, openTagChars, [], m, [], closeTagChars, post,
    by simp [h, List.append_assoc], ciEqList_refl _, rfl, ciEqList_refl _, rfl,
    ciEqList_refl _⟩

/-- The plugin template around its first promise tag. -/
theorem buildIterationPrompt_decomp (st : RalphState) :
    (buildIterationPrompt st).data =
      (plgSegA ++ toString st.iteration ++ plgSegB ++ st.prompt ++ plgSegC).data ++
        (openTagChars ++ st.completionPromise.data ++ closeTagChars) ++
        (plgSegD ++ "<promise>" ++ st.completionPromise ++ "</promise>" ++ plgSegE ++
          toString st.iteration ++ maxIterSuffix st ++ plgSegF).data := by
  show (buildIterationPrompt st).data = _
  unfold buildIterationPrompt
  simp only [String.data_append, openTagChars, closeTagChars, List.append_assoc]

/-- The external template around its first promise tag. -/
theorem promptTemplate_decomp (st : RalphState) :
    (promptTemplate st).data =
      (extSegA ++ toString st.iteration ++ extSegB ++ st.prompt ++ extSegC).data ++
        (openTagChars ++ st.completionPromise.data ++ closeTagChars) ++
        (extSegD ++ "<promise>" ++ st.completionPromise ++ "</promise>" ++ extSegE ++
          toString st.iteration ++ maxIterSuffix st ++ extSegF).data := by
  unfold promptTemplate
  simp only [String.data_append, openTagChars, closeTagChars, List.append_assoc]

/-- Unfolding the `String` constructor. -/
theorem stringMk_data (l : List Char) : (String.mk l).data = l := rfl

/-- The trimmed external prompt still contains the wrapped marker. -/
theorem buildPrompt_decomp (st : RalphState) :
    ∃ pre post, (buildPrompt st).data =
      pre ++ (openTagChars ++ st.completionPromise.data ++ closeTagChars) ++ post := by
  have htpl := promptTemplate_decomp st
  rw [tagOcc_shape] at htpl
  obtain ⟨pre2, post2, h⟩ := trimList_keeps_seg '<' '>' (by decide) (by decide)
    ("promise>".data ++ st.completionPromise.data ++ "</promise".data)
    ((extSegA ++ toString st.iteration ++ extSegB ++ st.prompt ++ extSegC).data)
    ((extSegD ++ "<promise>" ++ st.completionPromise ++ "</promise>" ++ extSegE ++
      toString st.iteration ++ maxIterSuffix st ++ extSegF).data)
  refine ⟨pre2, post2, ?_⟩
  unfold buildPrompt
  rw [stringMk_data, htpl, h, ← tagOcc_shape]
/-- Containment from an explicit decomposition. -/
theorem containsSeg_of_eq (occ l a b : List Char) (h : l = a ++ (occ ++ b)) :
    containsSeg occ l = true :=
  (containsSeg_iff occ l).mpr ⟨a, b, by simp [h, List.append_assoc]⟩

/-- Containment is transitive. -/
theorem containsSeg_trans (a b l : List Char) (hab : containsSeg a b = true)
    (hbl : containsSeg b l = true) : containsSeg a l = true := by
  rw [containsSeg_iff] at hab hbl ⊢
  obtain ⟨x, y, hb⟩ := hab
  obtain ⟨u, v, hl⟩ := hbl
  exact ⟨u ++ x, y ++ v, by simp [hl, hb, List.append_assoc]⟩

set_option maxRecDepth 4000 in
/-- The external template around its first iteration number, with the
neighbouring literal segments split at non-whitespace characters. -/
theorem promptTemplate_iter_decomp (st : RalphState) :
    (promptTemplate st).data =
      ['\n'] ++
        ('#' :: ((" Ralph Wiggum Loop - Iteration ".data ++
          (toString st.iteration).data ++ "\n\n".data) ++ ['Y'])) ++
        (("ou are in an iterative development loop. Work on the task below until you can genuinely complete it.\n\n## Your Task\n\n").data ++
          (st.prompt ++ extSegC ++ "<promise>" ++ st.completionPromise ++ "</promise>" ++
            extSegD ++ "<promise>" ++ st.completionPromise ++ "</promise>" ++ extSegE ++
            toString st.iteration ++ maxIterSuffix st ++ extSegF).data) := by
  have s1 : extSegA.data = '\n' :: '#' :: " Ralph Wiggum Loop - Iteration ".data := by decide
  have s2 : extSegB.data = '\n' :: '\n' :: 'Y' ::
      ("ou are in an iterative development loop. Work on the task below until you can genuinely complete it.\n\n## Your Task\n\n").data := by decide
  have s3 : ("\n\n" : String).data = ['\n', '\n'] := by decide
  unfold promptTemplate
  simp only [String.data_append, s1, s2, s3, List.append_assoc, List.cons_append,
    List.nil_append, List.singleton_append]

/-- The trimmed external prompt still contains its iteration banner. -/
theorem buildPrompt_iter_decomp (st : RalphState) :
    ∃ pre post, (buildPrompt st).data =
      pre ++ ('#' :: ((" Ralph Wiggum Loop - Iteration ".data ++
        (toString st.iteration).data ++ "\n\n".data) ++ ['Y'])) ++ post := by
  have htpl := promptTemplate_iter_decomp st
  obtain ⟨pre2, post2, h⟩ := trimList_keeps_seg '#' 'Y' (by decide) (by decide)
    (" Ralph Wiggum Loop - Iteration ".data ++ (toString st.iteration).data ++ "\n\n".data)
    ['\n']
    (("ou are in an iterative development loop. Work on the task below until you can genuinely complete it.\n\n## Your Task\n\n").data ++
      (st.prompt ++ extSegC ++ "<promise>" ++ st.completionPromise ++ "</promise>" ++
        extSegD ++ "<promise>" ++ st.completionPromise ++ "</promise>" ++ extSegE ++
        toString st.iteration ++ maxIterSuffix st ++ extSegF).data)
  refine ⟨pre2, post2, ?_⟩
  unfold buildPrompt
  rw [stringMk_data, htpl, h]

/-- C7: for every state, the string rendered by the Prompt Builder — the
external `buildPrompt` and the in-host `buildIterationPrompt` — contains the
literal completion marker wrapped in the `<promise>`/`</promise>` tag syntax
checked by the Completion Matcher, and contains the decimal rendering of the
current iteration number; both builders are functions of the state alone. -/
theorem c7_prompt_builder_contract (st : RalphState) :
    containsSeg (openTagChars ++ st.completionPromise.data ++ closeTagChars)
        (buildPrompt st).data = true ∧
    containsSeg (toString st.iteration).data (buildPrompt st).data = true ∧
    containsSeg (openTagChars ++ st.completionPromise.data ++ closeTagChars)
        (buildIterationPrompt st).data = true ∧
    containsSeg (toString st.iteration).data (buildIterationPrompt st).data = true := by
  refine ⟨?_, ?_, ?_, ?_⟩
  · obtain ⟨pre, post, h⟩ := buildPrompt_decomp st
    exact containsSeg_of_eq _ _ pre post (by simp [h, List.append_assoc])
  · obtain ⟨pre, post, h⟩ := buildPrompt_iter_decomp st
    refine containsSeg_trans _
      ('#' :: ((" Ralph Wiggum Loop - Iteration ".data ++
        (toString st.iteration).data ++ "\n\n".data) ++ ['Y'])) _ ?_
      (containsSeg_of_eq _ _ pre post (by simp [h, List.append_assoc]))
    exact containsSeg_of_eq _ _ ('#' :: " Ralph Wiggum Loop - Iteration ".data)
      ("\n\n".data ++ ['Y']) (by simp [List.append_assoc])
  · exact containsSeg_of_eq _ _
      ((plgSegA ++ toString st.iteration ++ plgSegB ++ st.prompt ++ plgSegC).data)
      ((plgSegD ++ "<promise>" ++ st.completionPromise ++ "</promise>" ++ plgSegE ++
        toString st.iteration ++ maxIterSuffix st ++ plgSegF).data)
      (by simp [buildIterationPrompt_decomp st, List.append_assoc])
  · exact containsSeg_of_eq _ _ plgSegA.data
      ((plgSegB ++ st.prompt ++ plgSegC ++ "<promise>" ++ st.completionPromise ++
        "</promise>" ++ plgSegD ++ "<promise>" ++ st.completionPromise ++ "</promise>" ++
        plgSegE ++ toString st.iteration ++ maxIterSuffix st ++ plgSegF).data)
      (by simp [buildIterationPrompt, String.data_append, List.append_assoc])

/-- C9: the prompt rendered by either builder satisfies the Completion
Matcher against the state's own marker, and the matcher is monotone under
substring containment, so any agent output embedding the rendered prompt
verbatim is classified as completed. -/
theorem c9_prompt_self_matching (st : RalphState) :
    checkCompletion (buildPrompt st) st.completionPromise = true ∧
    checkCompletion (buildIterationPrompt st) st.completionPromise = true ∧
    (∀ out : String, containsSeg (buildPrompt st).data out.data = true →
      checkCompletion out st.completionPromise = true) := by
  have h1 : checkCompletion (buildPrompt st) st.completionPromise = true := by
    rw [checkCompletion_iff]
    obtain ⟨pre, post, h⟩ := buildPrompt_decomp st
    exact specMatchCI_of_decomp _ _ pre post h
  refine ⟨h1, ?_, fun out hsub => checkCompletion_mono _ _ _ hsub h1⟩
  rw [checkCompletion_iff]
  exact specMatchCI_of_decomp _ _ _ _ (buildIterationPrompt_decomp st)

/-- A concrete state used to instantiate hypotheses of claim theorems. -/
def sampleState : RalphState where
  active := true
  iteration := 1
  maxIterations := 0
  completionPromise := "COMPLETE"
  prompt := "Build a REST API for todos"
  startedAt := "2026-01-01T00:00:00.000Z"

/-- Witness for C9: the implication in the third conjunct applied at the
rendered prompt itself (which trivially contains itself). -/
theorem c9_prompt_self_matching_witness :
    checkCompletion (buildPrompt sampleState) sampleState.completionPromise = true :=
  (c9_prompt_self_matching sampleState).2.2 (buildPrompt sampleState)
    ((containsSeg_iff _ _).mpr ⟨[], [], by simp⟩)

/-! ## Claim C1 -/

/-- C1 (counterexample): `checkCompletion` accepts a text whose tag
delimiters are upper-case — the regex `i` flag applies to the whole pattern —
while the claim requires the text to contain the literal substring
`<promise>`, which this text does not. -/
theorem c1_counterexample :
    checkCompletion "<PROMISE>COMPLETE</PROMISE>" "COMPLETE" = true ∧
    ¬ SpecMatchLiteral "<PROMISE>COMPLETE</PROMISE>".data "COMPLETE".data := by
  refine ⟨by decide, fun h => ?_⟩
  have hc := specMatchLiteral_containsOpenTag _ _ h
  exact absurd hc (by decide)

/-- C1 (amended): for every marker string `m` and text `t`, `checkCompletion`
returns true iff `t` contains `<promise>`, optional whitespace, `m` matched
case-insensitively as literal text (every regex-special character in `m`
escaped, so `m = "a.b*c"` matches only that literal string), optional
whitespace, and `</promise>` — where the two tag delimiters are themselves
matched case-insensitively, since the constructed regex's `i` flag applies to
the whole pattern; the function is pure. -/
theorem c1_completion_matcher (t m : String) :
    checkCompletion t m = true ↔ SpecMatchCI t.data m.data :=
  checkCompletion_iff t m

/-! ## Claims C2 and C5 -/

/-- C2: with an existing persisted record whose `active` flag is true, the
external driver's startup check exits with code 1 and the plugin's
`ralph_start` refuses, and in both cases the state file is returned exactly
as loaded — no write occurs on this failure path. -/
theorem c2_already_active_refused (disk : Option RalphState) (s init : RalphState)
    (prompt startedAt : String) (mi : Option Int) (cp : Option String)
    (hdisk : disk = some s) (hactive : s.active = true) :
    externalStart disk init = (disk, some 1) ∧
    ralphStartTool disk prompt mi cp startedAt = (disk, false) := by
  subst hdisk
  exact ⟨by simp [externalStart, hactive], by simp [ralphStartTool, hactive]⟩

/-- Witness for C2 at a concrete active record. -/
theorem c2_already_active_refused_witness :
    externalStart (some sampleState) sampleState = (some sampleState, some 1) ∧
    ralphStartTool (some sampleState) "p" none none "t" = (some sampleState, false) :=
  c2_already_active_refused (some sampleState) sampleState sampleState "p" "t" none none
    rfl rfl

/-- C5 (counterexample): a save with the state directory already present
performs exactly one direct write to the state path and no rename — the
operation list contains no atomic replace. -/
theorem c5_counterexample :
    usesAtomicReplace (saveStateOps true) = false ∧
    usesAtomicReplace (pluginSaveStateOps true) = false ∧
    saveStateOps true = [.writeFile statePath] := by
  refine ⟨by decide, by decide, by decide⟩

/-- C5 (amended): every save, in both drivers, performs (after creating the
directory when missing) exactly one direct in-place `writeFileSync` of the
record to the state path; no temporary file and no rename is involved, so
the overwrite is not an atomic replace and a concurrent reader may observe a
torn write. -/
theorem c5_save_direct_write (d : Bool) :
    saveStateOps d =
      (if d then [] else [.mkdirRecursive stateDir]) ++ [.writeFile statePath] ∧
    pluginSaveStateOps d =
      (if d then [] else [.mkdirRecursive stateDir]) ++ [.writeFile statePath] ∧
    usesAtomicReplace (saveStateOps d) = false ∧
    usesAtomicReplace (pluginSaveStateOps d) = false := by
  cases d <;> exact ⟨rfl, rfl, by decide, by decide⟩

/-! ## Claims C3, C4 and C10: the external loop -/

/-- An agent invocation that neither fails, errors, prints the placeholder
sentinel, nor satisfies the completion matcher. -/
def benignInvocation (a : AgentInvocation) (promise : String) : Prop :=
  ∃ r, a = .ok r ∧ detectPlaceholderPluginError r.stderr = false ∧
    detectPlaceholderPluginError r.stdout = false ∧ r.exitCode = 0 ∧
    checkCompletion r.stdout promise = false

/-- A bounded run with benign agent results and positive `maxIterations`
performs exactly the iterations from the current one up to the bound, then
stops with the state cleared. -/
theorem runLoop_benign_run (agent : Nat → AgentInvocation) (ac : Bool) (m : Nat)
    (hm : 0 < m) :
    ∀ (j e : Nat) (st : RalphState), st.maxIterations = (m : Int) →
      st.iteration + j = m + 1 →
      (∀ n, benignInvocation (agent n) st.completionPromise) →
      runLoop agent ac (j + 1 + e) st =
        ⟨List.range' st.iteration j, if ac then List.range' st.iteration j else [],
          some .maxReached, none⟩ := by
  intro j
  induction j with
  | zero =>
    intro e st hmax hiter hb
    have hf : 0 + 1 + e = e + 1 := by omega
    rw [hf]
    have hcond : st.maxIterations > 0 ∧ (st.iteration : Int) > st.maxIterations := by
      rw [hmax]
      constructor
      · exact_mod_cast hm
      · have : st.iteration = m + 1 := by omega
        rw [this]
        exact_mod_cast Nat.lt_succ_self m
    simp [runLoop, hcond, List.range']
  | succ j ih =>
    intro e st hmax hiter hb
    have hf : j + 1 + 1 + e = (j + 1 + e) + 1 := by omega
    rw [hf]
    have hle : st.iteration ≤ m := by omega
    have hcond : ¬(st.maxIterations > 0 ∧ (st.iteration : Int) > st.maxIterations) := by
      rw [hmax]
      rintro ⟨-, h2⟩
      omega
    obtain ⟨r, har, hs1, hs2, hec, hcc⟩ := hb st.iteration
    have hrest := ih e (incIter st) (by simpa [incIter] using hmax)
      (by simp [incIter]; omega) (by simpa [incIter] using hb)
    simp only [runLoop]
    rw [if_neg hcond, har]
    simp only [hs1, hs2, Bool.or_self, Bool.false_eq_true, if_false, hec,
      ne_eq, not_true_eq_false, hcc, ite_false, ite_true]
    rw [hrest]
    have hrange : List.range' st.iteration (j + 1) =
        st.iteration :: List.range' (st.iteration + 1) j := List.range'_succ _ _ 1
    simp only [incIter] at hrest ⊢
    cases ac <;> simp [hrange]

/-- C3: starting at iteration 1 with a positive bound `m` and a run in which
no iteration detects completion, fails, errors, or prints the sentinel, the
external driver builds a prompt and invokes the agent exactly for iteration
numbers 1 through `m` (for `m = 3`: exactly 1, 2, 3, never 4), then stops
with the persisted state cleared and exit code 0. -/
theorem c3_max_iterations_exact (m : Nat) (agent : Nat → AgentInvocation) (ac : Bool)
    (fuel : Nat) (st : RalphState) (hm : 0 < m) (hst : st.iteration = 1)
    (hmax : st.maxIterations = (m : Int)) (hfuel : m + 1 ≤ fuel)
    (hagent : ∀ n, benignInvocation (agent n) st.completionPromise) :
    (runLoop agent ac fuel st).invoked = List.range' 1 m ∧
    (runLoop agent ac fuel st).result = some .maxReached ∧
    (runLoop agent ac fuel st).disk = none ∧
    exitCodeOf .maxReached = 0 := by
  obtain ⟨e, rfl⟩ : ∃ e, fuel = m + 1 + e := ⟨fuel - (m + 1), by omega⟩
  have h := runLoop_benign_run agent ac m hm m e st hmax (by omega) hagent
  rw [h, hst]
  exact ⟨rfl, rfl, rfl, rfl⟩

/-- Witness for C3: three benign iterations under `maxIterations = 3`. -/
theorem c3_max_iterations_exact_witness :
    (runLoop (fun _ => .ok ⟨"", "", 0⟩) false 4
      { sampleState with maxIterations := 3 }).invoked = List.range' 1 3 ∧
    (runLoop (fun _ => .ok ⟨"", "", 0⟩) false 4
      { sampleState with maxIterations := 3 }).result = some .maxReached ∧
    (runLoop (fun _ => .ok ⟨"", "", 0⟩) false 4
      { sampleState with maxIterations := 3 }).disk = none ∧
    exitCodeOf .maxReached = 0 :=
  c3_max_iterations_exact 3 (fun _ => .ok ⟨"", "", 0⟩) false 4
    { sampleState with maxIterations := 3 } (by decide) rfl (by decide) (by decide)
    (fun _ => ⟨⟨"", "", 0⟩, rfl, by decide, by decide, rfl, by decide⟩)

/-- C4: in an iteration where the agent exits with a nonzero code and neither
stream contains the placeholder sentinel, the loop stops at once: only this
iteration ran, no auto-commit was attempted, the state file is cleared, no
save happened, and the process exit code equals the agent's. -/
theorem c4_nonzero_exit_stops (st : RalphState) (agent : Nat → AgentInvocation)
    (ac : Bool) (fuel : Nat) (r : AgentResult) (hfuel : 1 ≤ fuel)
    (hmaxok : ¬(st.maxIterations > 0 ∧ (st.iteration : Int) > st.maxIterations))
    (ha : agent st.iteration = .ok r)
    (hs1 : detectPlaceholderPluginError r.stderr = false)
    (hs2 : detectPlaceholderPluginError r.stdout = false)
    (hc : r.exitCode ≠ 0) :
    runLoop agent ac fuel st =
      ⟨[st.iteration], [], some (.agentFailed r.exitCode), none⟩ ∧
    exitCodeOf (.agentFailed r.exitCode) = r.exitCode := by
  obtain ⟨e, rfl⟩ : ∃ e, fuel = e + 1 := ⟨fuel - 1, by omega⟩
  refine ⟨?_, rfl⟩
  simp only [runLoop]
  rw [if_neg hmaxok, ha]
  simp [hs1, hs2, hc]

/-- Witness for C4: agent exit code 1 on iteration 1. -/
theorem c4_nonzero_exit_stops_witness :
    runLoop (fun _ => .ok ⟨"", "boom", 1⟩) true 1 sampleState =
      ⟨[sampleState.iteration], [], some (.agentFailed 1), none⟩ ∧
    exitCodeOf (.agentFailed 1) = 1 :=
  c4_nonzero_exit_stops sampleState (fun _ => .ok ⟨"", "boom", 1⟩) true 1
    ⟨"", "boom", 1⟩ (by decide) (by decide) rfl (by decide) (by decide) (by decide)

/-- With a non-positive `maxIterations` the external loop never takes the
max-iterations branch. -/
theorem runLoop_no_max (agent : Nat → AgentInvocation) (ac : Bool) :
    ∀ (fuel : Nat) (st : RalphState), st.maxIterations ≤ 0 →
      (runLoop agent ac fuel st).result ≠ some .maxReached := by
  intro fuel
  induction fuel with
  | zero => intro st h; simp [runLoop]
  | succ f ih =>
    intro st h
    have hcond : ¬(st.maxIterations > 0 ∧ (st.iteration : Int) > st.maxIterations) := by
      rintro ⟨h1, -⟩; omega
    simp only [runLoop]
    rw [if_neg hcond]
    cases hag : agent st.iteration with
    | err =>
      have := ih (incIter st) (by simpa [incIter] using h)
      simpa using this
    | ok r =>
      by_cases hs : (detectPlaceholderPluginError r.stderr ||
          detectPlaceholderPluginError r.stdout) = true
      · simp [hs]
      · rw [Bool.not_eq_true] at hs
        by_cases hec : r.exitCode = 0
        · by_cases hcc : checkCompletion r.stdout st.completionPromise = true
          · simp [hs, hec, hcc]
          · rw [Bool.not_eq_true] at hcc
            have := ih (incIter st) (by simpa [incIter] using h)
            simpa [hs, hec, hcc] using this
        · simp [hs, hec]

/-- With a non-positive `maxIterations` and benign agent results, the
external loop is still running after any number of passes, having performed
exactly the iterations from the starting one on. -/
theorem runLoop_unlimited (agent : Nat → AgentInvocation) (ac : Bool) (P : String) :
    ∀ (fuel : Nat) (st : RalphState), st.maxIterations ≤ 0 →
      st.completionPromise = P →
      (∀ n, benignInvocation (agent n) P) →
      (runLoop agent ac fuel st).result = none ∧
      (runLoop agent ac fuel st).invoked = List.range' st.iteration fuel := by
  intro fuel
  induction fuel with
  | zero => intro st h hP hb; simp [runLoop, List.range']
  | succ f ih =>
    intro st h hP hb
    have hcond : ¬(st.maxIterations > 0 ∧ (st.iteration : Int) > st.maxIterations) := by
      rintro ⟨h1, -⟩; omega
    obtain ⟨r, har, hs1, hs2, hec, hcc⟩ := hb st.iteration
    rw [← hP] at hcc
    have hrest := ih (incIter st) (by simpa [incIter] using h)
      (by simpa [incIter] using hP) hb
    have hrange : List.range' st.iteration (f + 1) =
        st.iteration :: List.range' (st.iteration + 1) f := List.range'_succ _ _ 1
    simp only [runLoop]
    rw [if_neg hcond, har]
    simp only [hs1, hs2, Bool.or_self, Bool.false_eq_true, if_false, hec,
      ne_eq, not_true_eq_false, hcc, ite_false, ite_true]
    simp only [incIter] at hrest ⊢
    simp [hrest.1, hrest.2, hrange]

/-- With a non-positive `maxIterations` the idle handler never takes the
max-iterations branch. -/
theorem handleIdle_no_max (p : Bool) (st : RalphState) (ev : Option String) (ck : Bool)
    (h : st.maxIterations ≤ 0) :
    (handleIdle p (some st) ev ck).action ≠ .maxReached := by
  have hcond : ¬(st.maxIterations > 0 ∧ (st.iteration : Int) > st.maxIterations) := by
    rintro ⟨h1, -⟩; omega
  unfold handleIdle
  cases p
  · by_cases h1 : st.active = true
    · by_cases h2 : lastOutputComplete st = true
      · simp [h1, h2]
      · rw [Bool.not_eq_true] at h2
        by_cases h3 : sessionUsable ev st ck = true
        · simp [h1, h2, hcond, h3]
        · rw [Bool.not_eq_true] at h3
          simp [h1, h2, hcond, h3]
    · rw [Bool.not_eq_true] at h1
      simp [h1]
  · simp

/-- C10: for every state with `maxIterations ≤ 0` (including the negative
values the CLI stores unchanged), the max-iterations termination check of
both drivers never fires: the external loop never stops with `maxReached`,
the idle handler never takes its max branch, and with benign agent results
the external loop keeps running for ever, performing every iteration number
from the starting one on. -/
theorem c10_nonpositive_max_unlimited (st : RalphState) (agent : Nat → AgentInvocation)
    (ac : Bool) (fuel : Nat) (p : Bool) (ev : Option String) (ck : Bool)
    (hmax : st.maxIterations ≤ 0) :
    (runLoop agent ac fuel st).result ≠ some .maxReached ∧
    (handleIdle p (some st) ev ck).action ≠ .maxReached ∧
    ((∀ n, benignInvocation (agent n) st.completionPromise) →
      (runLoop agent ac fuel st).result = none ∧
      (runLoop agent ac fuel st).invoked = List.range' st.iteration fuel) :=
  ⟨runLoop_no_max agent ac fuel st hmax, handleIdle_no_max p st ev ck hmax,
    fun hb => runLoop_unlimited agent ac st.completionPromise fuel st hmax rfl hb⟩

/-- Witness for C10 at `maxIterations = -5`. -/
theorem c10_nonpositive_max_unlimited_witness :
    (runLoop (fun _ => .ok ⟨"", "", 0⟩) false 2
      { sampleState with maxIterations := -5 }).result ≠ some .maxReached ∧
    (handleIdle false (some { sampleState with maxIterations := -5 }) none false).action ≠
      .maxReached ∧
    (runLoop (fun _ => .ok ⟨"", "", 0⟩) false 2
      { sampleState with maxIterations := -5 }).result = none ∧
    (runLoop (fun _ => .ok ⟨"", "", 0⟩) false 2
      { sampleState with maxIterations := -5 }).invoked =
      List.range' { sampleState with maxIterations := -5 }.iteration 2 := by
  have h := c10_nonpositive_max_unlimited { sampleState with maxIterations := -5 }
    (fun _ => .ok ⟨"", "", 0⟩) false 2 false none false (by decide)
  have hb := h.2.2 (fun _ => ⟨⟨"", "", 0⟩, rfl, by decide, by decide, rfl, by decide⟩)
  exact ⟨h.1, h.2.1, hb.1, hb.2⟩

/-! ## Claims C6 and C8: the plugin handlers -/

/-- C6: of two idle events where the second arrives while the first
invocation's processing flag is still set, the first performs the iteration
increment, the save of the incremented state and exactly one prompt
submission, while any invocation entered with the flag set changes no state
and submits nothing. -/
theorem c6_reentrancy_guard (st : RalphState) (ev : Option String) (ck : Bool)
    (hactive : st.active = true) (hlast : lastOutputComplete st = false)
    (hmaxok : ¬(st.maxIterations > 0 ∧ (st.iteration : Int) > st.maxIterations))
    (hsess : sessionUsable ev st ck = true) :
    handleIdle false (some st) ev ck =
      ⟨some (incIter st), .submitted (buildIterationPrompt (incIter st))⟩ ∧
    (∀ (d : Option RalphState) (e : Option String) (c : Bool),
      handleIdle true d e c = ⟨d, .skippedProcessing⟩) := by
  refine ⟨?_, fun d e c => rfl⟩
  unfold handleIdle
  simp [hactive, hlast, hmaxok, hsess]

/-- Witness for C6 at a concrete active record with a usable session. -/
theorem c6_reentrancy_guard_witness :
    handleIdle false (some sampleState) (some "ses_1") true =
      ⟨some (incIter sampleState),
        .submitted (buildIterationPrompt (incIter sampleState))⟩ ∧
    handleIdle true (some sampleState) (some "ses_1") true =
      ⟨some sampleState, .skippedProcessing⟩ := by
  have h := c6_reentrancy_guard sampleState (some "ses_1") true rfl (by decide)
    (by decide) (by decide)
  exact ⟨h.1, h.2 (some sampleState) (some "ses_1") true⟩

/-- Every state the external loop saves for a following pass keeps `prompt`
and `completionPromise`. -/
theorem runLoop_preserves_prompt (agent : Nat → AgentInvocation) (ac : Bool) :
    ∀ (fuel : Nat) (st st2 : RalphState),
      (runLoop agent ac fuel st).disk = some st2 →
      st2.prompt = st.prompt ∧ st2.completionPromise = st.completionPromise := by
  intro fuel
  induction fuel with
  | zero =>
    intro st st2 h
    simp only [runLoop, Option.some.injEq] at h
    rw [← h]
    exact ⟨rfl, rfl⟩
  | succ f ih =>
    intro st st2 h
    simp only [runLoop] at h
    by_cases hcond : (st.maxIterations > 0 ∧ (st.iteration : Int) > st.maxIterations)
    · rw [if_pos hcond] at h
      simp at h
    · rw [if_neg hcond] at h
      cases hag : agent st.iteration with
      | err =>
        rw [hag] at h
        obtain ⟨h1, h2⟩ := ih (incIter st) st2 (by simpa using h)
        exact ⟨h1, h2⟩
      | ok r =>
        rw [hag] at h
        by_cases hs : (detectPlaceholderPluginError r.stderr ||
            detectPlaceholderPluginError r.stdout) = true
        · simp [hs] at h
        · rw [Bool.not_eq_true] at hs
          by_cases hec : r.exitCode = 0
          · by_cases hcc : checkCompletion r.stdout st.completionPromise = true
            · simp [hs, hec, hcc] at h
            · rw [Bool.not_eq_true] at hcc
              simp only [hs, hec, hcc, Bool.false_eq_true, if_false, ne_eq,
                not_true_eq_false, ite_false, ite_true] at h
              obtain ⟨h1, h2⟩ := ih (incIter st) st2 (by simpa using h)
              exact ⟨h1, h2⟩
          · simp [hs, hec] at h

/-- Every state the idle handler saves keeps `prompt` and
`completionPromise`. -/
theorem handleIdle_preserves_prompt (p : Bool) (st st2 : RalphState)
    (ev : Option String) (ck : Bool)
    (h : (handleIdle p (some st) ev ck).disk = some st2) :
    st2.prompt = st.prompt ∧ st2.completionPromise = st.completionPromise := by
  unfold handleIdle at h
  cases p
  · by_cases h1 : st.active = true
    · by_cases h2 : lastOutputComplete st = true
      · simp [h1, h2] at h
      · rw [Bool.not_eq_true] at h2
        by_cases h3 : (st.maxIterations > 0 ∧ (st.iteration : Int) > st.maxIterations)
        · simp [h1, h2, h3] at h
        · by_cases h4 : sessionUsable ev st ck = true
          · simp only [Bool.false_eq_true, if_false, h1, Bool.not_true, h2, h3, h4,
              Bool.not_false, ite_true, ite_false, Option.some.injEq] at h
            rw [← h]
            exact ⟨rfl, rfl⟩
          · rw [Bool.not_eq_true] at h4
            simp only [Bool.false_eq_true, if_false, h1, Bool.not_true, h2, h3, h4,
              Bool.not_false, ite_true, ite_false, Option.some.injEq] at h
            rw [← h]
            exact ⟨rfl, rfl⟩
    · rw [Bool.not_eq_true] at h1
      simp only [Bool.false_eq_true, if_false, h1, Bool.not_false, ite_true,
        Option.some.injEq] at h
      rw [← h]
      exact ⟨rfl, rfl⟩
  · simp only [if_true, Option.some.injEq] at h
    rw [← h]
    exact ⟨rfl, rfl⟩

/-- Every state the message-updated handler saves keeps `prompt` and
`completionPromise`. -/
theorem handleMessageUpdated_preserves_prompt (st st2 : RalphState) (role : String)
    (content : MsgContent)
    (h : handleMessageUpdated (some st) role content = some st2) :
    st2.prompt = st.prompt ∧ st2.completionPromise = st.completionPromise := by
  unfold handleMessageUpdated at h
  by_cases h1 : st.active = true
  · by_cases h2 : (role == "assistant" && contentTruthy content) = true
    · by_cases h3 : (!(extractText content).isEmpty &&
          checkCompletion (extractText content) st.completionPromise) = true
      · simp only [h1, Bool.not_true, Bool.false_eq_true, if_false, h2, if_true, h3,
          Option.some.injEq] at h
        rw [← h]
        exact ⟨rfl, rfl⟩
      · rw [Bool.not_eq_true] at h3
        simp only [h1, Bool.not_true, Bool.false_eq_true, if_false, h2, if_true, h3,
          Option.some.injEq] at h
        rw [← h]
        exact ⟨rfl, rfl⟩
    · rw [Bool.not_eq_true] at h2
      simp only [h1, Bool.not_true, Bool.false_eq_true, if_false, h2,
        Option.some.injEq] at h
      rw [← h]
      exact ⟨rfl, rfl⟩
  · rw [Bool.not_eq_true] at h1
    simp only [h1, Bool.not_false, if_true, Option.some.injEq] at h
    rw [← h]
    exact ⟨rfl, rfl⟩

/-- C8: between creation and deletion, every state write of either driver —
the external loop's per-iteration save, the idle handler's save, and the
message-updated handler's save — preserves the `prompt` and
`completionPromise` fields (only `iteration` and/or `lastOutput` change). -/
theorem c8_prompt_promise_immutable :
    (∀ (agent : Nat → AgentInvocation) (ac : Bool) (fuel : Nat) (st st2 : RalphState),
      (runLoop agent ac fuel st).disk = some st2 →
      st2.prompt = st.prompt ∧ st2.completionPromise = st.completionPromise) ∧
    (∀ (p : Bool) (st st2 : RalphState) (ev : Option String) (ck : Bool),
      (handleIdle p (some st) ev ck).disk = some st2 →
      st2.prompt = st.prompt ∧ st2.completionPromise = st.completionPromise) ∧
    (∀ (st st2 : RalphState) (role : String) (content : MsgContent),
      handleMessageUpdated (some st) role content = some st2 →
      st2.prompt = st.prompt ∧ st2.completionPromise = st.completionPromise) :=
  ⟨fun agent ac fuel st st2 h => runLoop_preserves_prompt agent ac fuel st st2 h,
   fun p st st2 ev ck h => handleIdle_preserves_prompt p st st2 ev ck h,
   fun st st2 role content h => handleMessageUpdated_preserves_prompt st st2 role content h⟩

/-- Witness for C8: each conjunct applied at a concrete saved state. -/
theorem c8_prompt_promise_immutable_witness :
    (sampleState.prompt = sampleState.prompt ∧
      sampleState.completionPromise = sampleState.completionPromise) ∧
    ((incIter sampleState).prompt = sampleState.prompt ∧
      (incIter sampleState).completionPromise = sampleState.completionPromise) ∧
    (sampleState.prompt = sampleState.prompt ∧
      sampleState.completionPromise = sampleState.completionPromise) :=
  ⟨c8_prompt_promise_immutable.1 (fun _ => .err) false 0 sampleState sampleState rfl,
   c8_prompt_promise_immutable.2.1 false sampleState (incIter sampleState)
     (some "ses_1") true (by decide),
   c8_prompt_promise_immutable.2.2 sampleState sampleState "user" .absent rfl⟩

end RalphWiggum